import Mathlib

/-!
Shallow embedding of `src/tokenizer.rs` (crate `alanlang-rs`): a lexical
scanner for a small imperative language.  Rust `char` iterators become
`List Char`, the mutable `Tokenizer` struct becomes a record passed
explicitly, `Iterator::next` becomes a function returning a `NextResult`
(where a Rust panic from `.unwrap()` is the distinguished outcome
`panicked`), and `i32` parsing becomes an `Option Int` guarded by the
`i32` range.
-/

/-- `Token` from `tokenizer.rs`: one lexical unit.  `Integer` carries an
`i32` value (modelled as `Int`; every produced value fits the `i32` range
by construction of `parse_i32`). -/
inductive Token where
  | Invalid
  | Boolean (b : Bool)
  | Integer (n : Int)
  | Name (s : String)
  | And
  | Array
  | If
  | Let
  | Not
  | Or
  | Print
  | While
  | Asterisk
  | BraceLeft
  | BraceRight
  | BracketLeft
  | BracketRight
  | Colon
  | Dot
  | EqualSign
  | Minus
  | ParenLeft
  | ParenRight
  | Plus
  | Semicolon
  | Slash
  | Assign
  | Eq
  | Ge
  | Gt
  | Le
  | Lt
  | Ne
deriving DecidableEq

/-- The static `KEYWORDS` map (`lazy_static!` block): reserved spelling to
token.  The `HashMap` is modelled as an association list with distinct
keys; lookup order is irrelevant. -/
def KEYWORDS : List (String × Token) :=
  [("and", Token.And), ("array", Token.Array), ("if", Token.If),
   ("let", Token.Let), ("not", Token.Not), ("or", Token.Or),
   ("print", Token.Print), ("while", Token.While)]

/-- `KEYWORDS.get(s.as_str())`: exact, case-sensitive lookup. -/
def keywordGet (s : String) : Option Token :=
  (KEYWORDS.find? (fun kv => kv.1 == s)).map (fun kv => kv.2)

/-- The `match KEYWORDS.get(..)` at the end of the identifier branch of
`Tokenizer::next`: a registered keyword yields its reserved-word token,
anything else yields `Name(s)`. -/
def classifyWord (s : String) : Token :=
  match keywordGet s with
  | some Token.And => Token.And
  | some Token.Array => Token.Array
  | some Token.If => Token.If
  | some Token.Let => Token.Let
  | some Token.Not => Token.Not
  | some Token.Or => Token.Or
  | some Token.Print => Token.Print
  | some Token.While => Token.While
  | _ => Token.Name s

/-- The whitespace class of `consume_whitespace`: `' ' | '\t' | '\n'`. -/
def isWhitespaceChar (c : Char) : Bool :=
  c = ' ' || c = '\t' || c = '\n'

/-- The Rust pattern `'0'...'9'` (inclusive range). -/
def isDigitChar (c : Char) : Bool :=
  '0'.toNat ≤ c.toNat && c.toNat ≤ '9'.toNat

/-- The Rust pattern `'a'...'z' | 'A'...'Z'` (identifier start). -/
def isLetterChar (c : Char) : Bool :=
  ('a'.toNat ≤ c.toNat && c.toNat ≤ 'z'.toNat) ||
  ('A'.toNat ≤ c.toNat && c.toNat ≤ 'Z'.toNat)

/-- The Rust pattern `'a'...'z' | 'A'...'Z' | '0'...'9' | '_'`
(identifier continuation). -/
def isWordChar (c : Char) : Bool :=
  isLetterChar c || isDigitChar c || c = '_'

/-- Scanner state (`pub struct Tokenizer`): the remaining input
(`Peekable<Chars>` as the list of characters not yet consumed), the byte
length of the original input (`len`), and the cursor fields `pos`, `line`,
`col` (Rust `u32`; all inputs of interest are far below `2^32`, so plain
`Nat` is used). -/
structure Tokenizer where
  input : List Char
  len : Nat
  pos : Nat
  line : Nat
  col : Nat
deriving DecidableEq

/-- `Tokenizer::new`: wraps the text, `pos = 0`, `line = 1`, `col = 0`. -/
def Tokenizer.new (s : String) : Tokenizer :=
  { input := s.data, len := s.utf8ByteSize, pos := 0, line := 1, col := 0 }

/-- The inner `while let Some(&c) = self.peek_char()` loop of
`consume_whitespace`, with the mutable fields passed explicitly: consume
whitespace characters, bumping `pos` for each and `line` at each newline,
stopping at the first non-whitespace character.  (The outer `if let` of the
source only guards entry into this loop and adds nothing: when the first
character is not whitespace the loop also stops immediately.) -/
def wsLoop : List Char → Nat → Nat → List Char × Nat × Nat
  | [], pos, line => ([], pos, line)
  | c :: rest, pos, line =>
    if isWhitespaceChar c then
      wsLoop rest (pos + 1) (if c = '\n' then line + 1 else line)
    else (c :: rest, pos, line)

/-- `Tokenizer::consume_whitespace`. -/
def consume_whitespace (t : Tokenizer) : Tokenizer :=
  let r := wsLoop t.input t.pos t.line
  { t with input := r.1, pos := r.2.1, line := r.2.2 }

/-- The maximal-run accumulation loops of the digit and identifier branches
of `Tokenizer::next`: `while let Some(&c) = self.peek_char() { match c {
CLASS => s.push(c), _ => break }; self.next_char(); }`.  Returns the
accumulated string and the remaining input. -/
def scanRun (p : Char → Bool) : List Char → String → String × List Char
  | [], s => (s, [])
  | c :: rest, s => if p c then scanRun p rest (s.push c) else (s, c :: rest)

/-- `s.parse::<i32>()` applied to a nonempty string of decimal digits: `Ok`
with the value exactly when it fits in `i32` (no sign, so the only
failure is exceeding `i32::MAX = 2147483647`). -/
def digitsVal (s : String) : Nat :=
  s.data.foldl (fun acc c => acc * 10 + (c.toNat - '0'.toNat)) 0

def parse_i32 (s : String) : Option Int :=
  if digitsVal s ≤ 2147483647 then some (Int.ofNat (digitsVal s)) else none

/-- Outcome of one call to `Tokenizer::next`.  `eof` is Rust `None`
(input exhausted); `token tk t` is `Some(tk)` together with the successor
scanner state; `panicked` models a Rust panic — `.unwrap()` on a failed
integer parse — which aborts the process and is not a value returned to
the caller. -/
inductive NextResult where
  | panicked
  | eof
  | token (tk : Token) (t : Tokenizer)
deriving DecidableEq

/-- The `':'` arm of the dispatch `match` of `Tokenizer::next`, applied to
the state after the `':'` itself has been consumed: peek for `'='`
(`Some(&'=')` consumes it and yields `Assign`; anything else yields
`Colon` without consuming). -/
def colonArm (t : Tokenizer) : NextResult :=
  match t.input with
  | '=' :: rest2 => NextResult.token Token.Assign { t with input := rest2 }
  | _ => NextResult.token Token.Colon t

/-- The `'='` arm: peek for `'='` (`Eq` vs `EqualSign`). -/
def equalArm (t : Tokenizer) : NextResult :=
  match t.input with
  | '=' :: rest2 => NextResult.token Token.Eq { t with input := rest2 }
  | _ => NextResult.token Token.EqualSign t

/-- The `'>'` arm: peek for `'='` (`Ge` vs `Gt`). -/
def gtArm (t : Tokenizer) : NextResult :=
  match t.input with
  | '=' :: rest2 => NextResult.token Token.Ge { t with input := rest2 }
  | _ => NextResult.token Token.Gt t

/-- The `'<'` arm: peek for `'='` (`Le`) or `'>'` (`Ne`), else `Lt`. -/
def ltArm (t : Tokenizer) : NextResult :=
  match t.input with
  | '=' :: rest2 => NextResult.token Token.Le { t with input := rest2 }
  | '>' :: rest2 => NextResult.token Token.Ne { t with input := rest2 }
  | _ => NextResult.token Token.Lt t

/-- The digit arm (`'0'...'9'`), given the already-consumed first digit
`c`: accumulate the maximal digit run into a string, then
`s.parse::<i32>().unwrap()` — a failed parse panics. -/
def digitArm (c : Char) (t : Tokenizer) : NextResult :=
  match parse_i32 (scanRun isDigitChar t.input c.toString).1 with
  | some num => NextResult.token (Token.Integer num)
      { t with input := (scanRun isDigitChar t.input c.toString).2 }
  | none => NextResult.panicked

/-- The letter arm (`'a'...'z' | 'A'...'Z'`), given the already-consumed
first letter `c`: accumulate the maximal letter/digit/underscore run, then
consult the keyword table. -/
def letterArm (c : Char) (t : Tokenizer) : NextResult :=
  NextResult.token (classifyWord (scanRun isWordChar t.input c.toString).1)
    { t with input := (scanRun isWordChar t.input c.toString).2 }

/-- The dispatch `match c` of `Tokenizer::next`, applied after whitespace
has been consumed.  The scrutinee `c` is the character returned by
`self.next_char()` (note: `next_char` advances the iterator only; it does
not touch `pos`, `line` or `col`); the state passed to each arm already
has `c` removed from the input.  The Rust `match` patterns are mutually
exclusive literal/range patterns, rendered as a decision chain. -/
def Tokenizer.dispatch (t : Tokenizer) : NextResult :=
  match t.input with
  | [] => NextResult.eof
  | c :: rest =>
    if c = '*' then NextResult.token Token.Asterisk { t with input := rest }
    else if c = '{' then NextResult.token Token.BraceLeft { t with input := rest }
    else if c = '}' then NextResult.token Token.BraceRight { t with input := rest }
    else if c = '[' then NextResult.token Token.BracketLeft { t with input := rest }
    else if c = ']' then NextResult.token Token.BracketRight { t with input := rest }
    else if c = ':' then colonArm { t with input := rest }
    else if c = '.' then NextResult.token Token.Dot { t with input := rest }
    else if c = '=' then equalArm { t with input := rest }
    else if c = '-' then NextResult.token Token.Minus { t with input := rest }
    else if c = '(' then NextResult.token Token.ParenLeft { t with input := rest }
    else if c = ')' then NextResult.token Token.ParenRight { t with input := rest }
    else if c = '+' then NextResult.token Token.Plus { t with input := rest }
    else if c = ';' then NextResult.token Token.Semicolon { t with input := rest }
    else if c = '/' then NextResult.token Token.Slash { t with input := rest }
    else if c = '>' then gtArm { t with input := rest }
    else if c = '<' then ltArm { t with input := rest }
    else if isDigitChar c then digitArm c { t with input := rest }
    else if isLetterChar c then letterArm c { t with input := rest }
    else NextResult.token Token.Invalid { t with input := rest }

/-- `Tokenizer::next` (the `Iterator` impl): skip whitespace, then
dispatch on the next character. -/
def Tokenizer.next (t : Tokenizer) : NextResult :=
  (consume_whitespace t).dispatch

/-- Outcome of draining the whole iterator.  `outOfFuel` can only arise
from insufficient fuel, never from `tokenize` (proved below). -/
inductive ScanOutcome where
  | panicked
  | outOfFuel
  | tokens (l : List Token)
deriving DecidableEq

/-- Repeated calls to `Tokenizer::next` until `None` (fuel-indexed). -/
def runTokenizer : Nat → Tokenizer → ScanOutcome
  | 0, _ => ScanOutcome.outOfFuel
  | fuel + 1, t =>
    match t.next with
    | NextResult.panicked => ScanOutcome.panicked
    | NextResult.eof => ScanOutcome.tokens []
    | NextResult.token tk t' =>
      match runTokenizer fuel t' with
      | ScanOutcome.tokens l => ScanOutcome.tokens (tk :: l)
      | r => r

/-- Collect the full token sequence of an input string.  Each produced
token consumes at least one character (proved below), so
`length + 1` fuel always suffices. -/
def tokenize (s : String) : ScanOutcome :=
  runTokenizer (s.data.length + 1) (Tokenizer.new s)

/-- A character matched by none of the dispatch patterns of
`Tokenizer::next` (symbols, digit range, letter ranges): such a character
falls through to the final `_ => Token::Invalid` arm. -/
def noScanRule (c : Char) : Bool :=
  !(c = '*' || c = '{' || c = '}' || c = '[' || c = ']' || c = ':' ||
    c = '.' || c = '=' || c = '-' || c = '(' || c = ')' || c = '+' ||
    c = ';' || c = '/' || c = '>' || c = '<' ||
    isDigitChar c || isLetterChar c)


theorem wsLoop_spec (l : List Char) (pos line : Nat) :
    wsLoop l pos line =
      (l.dropWhile isWhitespaceChar,
       pos + (l.takeWhile isWhitespaceChar).length,
       line + ((l.takeWhile isWhitespaceChar).filter (fun c => c = '\n')).length) := by
  induction l generalizing pos line with
  | nil => simp [wsLoop]
  | cons c rest ih =>
    by_cases h : isWhitespaceChar c
    · simp only [wsLoop, h, if_pos, ih, List.dropWhile_cons, List.takeWhile_cons]
      refine Prod.ext rfl (Prod.ext ?_ ?_) <;> simp [List.filter_cons]
      · omega
      · by_cases hn : c = '\n' <;> simp [hn]
        all_goals omega
    · simp [wsLoop, h, List.dropWhile_cons, List.takeWhile_cons]

theorem consume_whitespace_eq (t : Tokenizer) :
    consume_whitespace t =
      { input := t.input.dropWhile isWhitespaceChar,
        len := t.len,
        pos := t.pos + (t.input.takeWhile isWhitespaceChar).length,
        line := t.line +
          ((t.input.takeWhile isWhitespaceChar).filter (fun c => c = '\n')).length,
        col := t.col } := by
  simp [consume_whitespace, wsLoop_spec]

theorem consume_whitespace_of_head_not_ws (t : Tokenizer) (c : Char)
    (rest : List Char) (hin : t.input = c :: rest)
    (hc : isWhitespaceChar c = false) : consume_whitespace t = t := by
  cases t
  simp_all [consume_whitespace_eq, List.dropWhile_cons, List.takeWhile_cons]

theorem scanRun_spec (p : Char → Bool) (l : List Char) (s : String) :
    scanRun p l s = (⟨s.data ++ l.takeWhile p⟩, l.dropWhile p) := by
  induction l generalizing s with
  | nil => simp [scanRun]
  | cons c rest ih =>
    by_cases h : p c
    · simp [scanRun, h, ih, List.takeWhile_cons, List.dropWhile_cons, String.push]
    · simp [scanRun, h, List.takeWhile_cons, List.dropWhile_cons]

theorem classifyWord_ne_boolean (s : String) (b : Bool) :
    classifyWord s ≠ Token.Boolean b := by
  unfold classifyWord
  split <;> simp

theorem dispatch_nil (tlen tpos tline tcol : Nat) :
    Tokenizer.dispatch ⟨[], tlen, tpos, tline, tcol⟩ = NextResult.eof := rfl

theorem dispatch_cons (tlen tpos tline tcol : Nat) (c : Char) (rest : List Char) :
    Tokenizer.dispatch ⟨c :: rest, tlen, tpos, tline, tcol⟩ =
      (if c = '*' then NextResult.token Token.Asterisk ⟨rest, tlen, tpos, tline, tcol⟩
       else if c = '{' then NextResult.token Token.BraceLeft ⟨rest, tlen, tpos, tline, tcol⟩
       else if c = '}' then NextResult.token Token.BraceRight ⟨rest, tlen, tpos, tline, tcol⟩
       else if c = '[' then NextResult.token Token.BracketLeft ⟨rest, tlen, tpos, tline, tcol⟩
       else if c = ']' then NextResult.token Token.BracketRight ⟨rest, tlen, tpos, tline, tcol⟩
       else if c = ':' then colonArm ⟨rest, tlen, tpos, tline, tcol⟩
       else if c = '.' then NextResult.token Token.Dot ⟨rest, tlen, tpos, tline, tcol⟩
       else if c = '=' then equalArm ⟨rest, tlen, tpos, tline, tcol⟩
       else if c = '-' then NextResult.token Token.Minus ⟨rest, tlen, tpos, tline, tcol⟩
       else if c = '(' then NextResult.token Token.ParenLeft ⟨rest, tlen, tpos, tline, tcol⟩
       else if c = ')' then NextResult.token Token.ParenRight ⟨rest, tlen, tpos, tline, tcol⟩
       else if c = '+' then NextResult.token Token.Plus ⟨rest, tlen, tpos, tline, tcol⟩
       else if c = ';' then NextResult.token Token.Semicolon ⟨rest, tlen, tpos, tline, tcol⟩
       else if c = '/' then NextResult.token Token.Slash ⟨rest, tlen, tpos, tline, tcol⟩
       else if c = '>' then gtArm ⟨rest, tlen, tpos, tline, tcol⟩
       else if c = '<' then ltArm ⟨rest, tlen, tpos, tline, tcol⟩
       else if isDigitChar c then digitArm c ⟨rest, tlen, tpos, tline, tcol⟩
       else if isLetterChar c then letterArm c ⟨rest, tlen, tpos, tline, tcol⟩
       else NextResult.token Token.Invalid ⟨rest, tlen, tpos, tline, tcol⟩) := rfl

theorem colonArm_nil (t : Tokenizer) (ht : t.input = []) :
    colonArm t = NextResult.token Token.Colon t := by
  unfold colonArm; rw [ht]

theorem colonArm_extend (t : Tokenizer) (rest2 : List Char)
    (ht : t.input = '=' :: rest2) :
    colonArm t = NextResult.token Token.Assign { t with input := rest2 } := by
  unfold colonArm; rw [ht]; rfl

theorem colonArm_other (t : Tokenizer) (d : Char) (rest2 : List Char)
    (ht : t.input = d :: rest2) (hd : d ≠ '=') :
    colonArm t = NextResult.token Token.Colon t := by
  unfold colonArm; rw [ht]; split <;> simp_all

theorem equalArm_nil (t : Tokenizer) (ht : t.input = []) :
    equalArm t = NextResult.token Token.EqualSign t := by
  unfold equalArm; rw [ht]

theorem equalArm_extend (t : Tokenizer) (rest2 : List Char)
    (ht : t.input = '=' :: rest2) :
    equalArm t = NextResult.token Token.Eq { t with input := rest2 } := by
  unfold equalArm; rw [ht]; rfl

theorem equalArm_other (t : Tokenizer) (d : Char) (rest2 : List Char)
    (ht : t.input = d :: rest2) (hd : d ≠ '=') :
    equalArm t = NextResult.token Token.EqualSign t := by
  unfold equalArm; rw [ht]; split <;> simp_all

theorem gtArm_nil (t : Tokenizer) (ht : t.input = []) :
    gtArm t = NextResult.token Token.Gt t := by
  unfold gtArm; rw [ht]

theorem gtArm_extend (t : Tokenizer) (rest2 : List Char)
    (ht : t.input = '=' :: rest2) :
    gtArm t = NextResult.token Token.Ge { t with input := rest2 } := by
  unfold gtArm; rw [ht]; rfl

theorem gtArm_other (t : Tokenizer) (d : Char) (rest2 : List Char)
    (ht : t.input = d :: rest2) (hd : d ≠ '=') :
    gtArm t = NextResult.token Token.Gt t := by
  unfold gtArm; rw [ht]; split <;> simp_all

theorem ltArm_nil (t : Tokenizer) (ht : t.input = []) :
    ltArm t = NextResult.token Token.Lt t := by
  unfold ltArm; rw [ht]

theorem ltArm_le (t : Tokenizer) (rest2 : List Char)
    (ht : t.input = '=' :: rest2) :
    ltArm t = NextResult.token Token.Le { t with input := rest2 } := by
  unfold ltArm; rw [ht]; rfl

theorem ltArm_ne (t : Tokenizer) (rest2 : List Char)
    (ht : t.input = '>' :: rest2) :
    ltArm t = NextResult.token Token.Ne { t with input := rest2 } := by
  unfold ltArm; rw [ht]; rfl

theorem ltArm_other (t : Tokenizer) (d : Char) (rest2 : List Char)
    (ht : t.input = d :: rest2) (hd1 : d ≠ '=') (hd2 : d ≠ '>') :
    ltArm t = NextResult.token Token.Lt t := by
  unfold ltArm; rw [ht]; split <;> simp_all

theorem digitArm_spec (c : Char) (t : Tokenizer) :
    digitArm c t =
      (if digitsVal ⟨c.toString.data ++ t.input.takeWhile isDigitChar⟩ ≤ 2147483647
       then NextResult.token
         (Token.Integer (Int.ofNat
           (digitsVal ⟨c.toString.data ++ t.input.takeWhile isDigitChar⟩)))
         { t with input := t.input.dropWhile isDigitChar }
       else NextResult.panicked) := by
  unfold digitArm
  simp only [scanRun_spec, parse_i32]
  split_ifs <;> rfl

theorem letterArm_spec (c : Char) (t : Tokenizer) :
    letterArm c t =
      NextResult.token
        (classifyWord ⟨c.toString.data ++ t.input.takeWhile isWordChar⟩)
        { t with input := t.input.dropWhile isWordChar } := by
  unfold letterArm
  simp only [scanRun_spec]

theorem colonArm_cases (t : Tokenizer) :
    ∃ tk t', colonArm t = NextResult.token tk t' ∧ t'.len = t.len ∧
      t'.pos = t.pos ∧ t'.line = t.line ∧ t'.col = t.col ∧
      t'.input.length ≤ t.input.length ∧ ∀ b, tk ≠ Token.Boolean b := by
  rcases ht : t.input with _ | ⟨d, rest2⟩
  · exact ⟨_, _, colonArm_nil t ht, rfl, rfl, rfl, rfl, by simp [ht], by simp⟩
  · by_cases hd : d = '='
    · subst hd
      exact ⟨_, _, colonArm_extend t rest2 ht, rfl, rfl, rfl, rfl,
        by simp [ht], by simp⟩
    · exact ⟨_, _, colonArm_other t d rest2 ht hd, rfl, rfl, rfl, rfl,
        by simp [ht], by simp⟩

theorem equalArm_cases (t : Tokenizer) :
    ∃ tk t', equalArm t = NextResult.token tk t' ∧ t'.len = t.len ∧
      t'.pos = t.pos ∧ t'.line = t.line ∧ t'.col = t.col ∧
      t'.input.length ≤ t.input.length ∧ ∀ b, tk ≠ Token.Boolean b := by
  rcases ht : t.input with _ | ⟨d, rest2⟩
  · exact ⟨_, _, equalArm_nil t ht, rfl, rfl, rfl, rfl, by simp [ht], by simp⟩
  · by_cases hd : d = '='
    · subst hd
      exact ⟨_, _, equalArm_extend t rest2 ht, rfl, rfl, rfl, rfl,
        by simp [ht], by simp⟩
    · exact ⟨_, _, equalArm_other t d rest2 ht hd, rfl, rfl, rfl, rfl,
        by simp [ht], by simp⟩

theorem gtArm_cases (t : Tokenizer) :
    ∃ tk t', gtArm t = NextResult.token tk t' ∧ t'.len = t.len ∧
      t'.pos = t.pos ∧ t'.line = t.line ∧ t'.col = t.col ∧
      t'.input.length ≤ t.input.length ∧ ∀ b, tk ≠ Token.Boolean b := by
  rcases ht : t.input with _ | ⟨d, rest2⟩
  · exact ⟨_, _, gtArm_nil t ht, rfl, rfl, rfl, rfl, by simp [ht], by simp⟩
  · by_cases hd : d = '='
    · subst hd
      exact ⟨_, _, gtArm_extend t rest2 ht, rfl, rfl, rfl, rfl,
        by simp [ht], by simp⟩
    · exact ⟨_, _, gtArm_other t d rest2 ht hd, rfl, rfl, rfl, rfl,
        by simp [ht], by simp⟩

theorem ltArm_cases (t : Tokenizer) :
    ∃ tk t', ltArm t = NextResult.token tk t' ∧ t'.len = t.len ∧
      t'.pos = t.pos ∧ t'.line = t.line ∧ t'.col = t.col ∧
      t'.input.length ≤ t.input.length ∧ ∀ b, tk ≠ Token.Boolean b := by
  rcases ht : t.input with _ | ⟨d, rest2⟩
  · exact ⟨_, _, ltArm_nil t ht, rfl, rfl, rfl, rfl, by simp [ht], by simp⟩
  · by_cases hd1 : d = '='
    · subst hd1
      exact ⟨_, _, ltArm_le t rest2 ht, rfl, rfl, rfl, rfl, by simp [ht], by simp⟩
    · by_cases hd2 : d = '>'
      · subst hd2
        exact ⟨_, _, ltArm_ne t rest2 ht, rfl, rfl, rfl, rfl, by simp [ht], by simp⟩
      · exact ⟨_, _, ltArm_other t d rest2 ht hd1 hd2, rfl, rfl, rfl, rfl,
          by simp [ht], by simp⟩

theorem digitArm_cases (c : Char) (t : Tokenizer) :
    (∃ tk t', digitArm c t = NextResult.token tk t' ∧ t'.len = t.len ∧
       t'.pos = t.pos ∧ t'.line = t.line ∧ t'.col = t.col ∧
       t'.input.length ≤ t.input.length ∧ ∀ b, tk ≠ Token.Boolean b) ∨
    digitArm c t = NextResult.panicked := by
  rw [digitArm_spec]
  split_ifs
  · exact Or.inl ⟨_, _, rfl, rfl, rfl, rfl, rfl,
      (List.dropWhile_sublist _).length_le, by simp⟩
  · exact Or.inr rfl

theorem letterArm_cases (c : Char) (t : Tokenizer) :
    ∃ tk t', letterArm c t = NextResult.token tk t' ∧ t'.len = t.len ∧
      t'.pos = t.pos ∧ t'.line = t.line ∧ t'.col = t.col ∧
      t'.input.length ≤ t.input.length ∧ ∀ b, tk ≠ Token.Boolean b := by
  rw [letterArm_spec]
  exact ⟨_, _, rfl, rfl, rfl, rfl, rfl, (List.dropWhile_sublist _).length_le,
    fun b => classifyWord_ne_boolean _ b⟩

theorem dispatch_cons_cases (tlen tpos tline tcol : Nat) (c : Char)
    (rest : List Char) :
    (∃ tk t', Tokenizer.dispatch ⟨c :: rest, tlen, tpos, tline, tcol⟩ =
        NextResult.token tk t' ∧
      t'.len = tlen ∧ t'.pos = tpos ∧ t'.line = tline ∧ t'.col = tcol ∧
      t'.input.length ≤ rest.length ∧ ∀ b, tk ≠ Token.Boolean b) ∨
    Tokenizer.dispatch ⟨c :: rest, tlen, tpos, tline, tcol⟩ =
      NextResult.panicked := by
  rw [dispatch_cons]
  by_cases h1 : c = '*'
  · rw [if_pos h1]; exact Or.inl ⟨_, _, rfl, rfl, rfl, rfl, rfl, Nat.le_refl _, by simp⟩
  rw [if_neg h1]
  by_cases h2 : c = '{'
  · rw [if_pos h2]; exact Or.inl ⟨_, _, rfl, rfl, rfl, rfl, rfl, Nat.le_refl _, by simp⟩
  rw [if_neg h2]
  by_cases h3 : c = '}'
  · rw [if_pos h3]; exact Or.inl ⟨_, _, rfl, rfl, rfl, rfl, rfl, Nat.le_refl _, by simp⟩
  rw [if_neg h3]
  by_cases h4 : c = '['
  · rw [if_pos h4]; exact Or.inl ⟨_, _, rfl, rfl, rfl, rfl, rfl, Nat.le_refl _, by simp⟩
  rw [if_neg h4]
  by_cases h5 : c = ']'
  · rw [if_pos h5]; exact Or.inl ⟨_, _, rfl, rfl, rfl, rfl, rfl, Nat.le_refl _, by simp⟩
  rw [if_neg h5]
  by_cases h6 : c = ':'
  · rw [if_pos h6]
    obtain ⟨tk, t', he, q1, q2, q3, q4, q5, q6⟩ :=
      colonArm_cases ⟨rest, tlen, tpos, tline, tcol⟩
    exact Or.inl ⟨tk, t', he, q1, q2, q3, q4, q5, q6⟩
  rw [if_neg h6]
  by_cases h7 : c = '.'
  · rw [if_pos h7]; exact Or.inl ⟨_, _, rfl, rfl, rfl, rfl, rfl, Nat.le_refl _, by simp⟩
  rw [if_neg h7]
  by_cases h8 : c = '='
  · rw [if_pos h8]
    obtain ⟨tk, t', he, q1, q2, q3, q4, q5, q6⟩ :=
      equalArm_cases ⟨rest, tlen, tpos, tline, tcol⟩
    exact Or.inl ⟨tk, t', he, q1, q2, q3, q4, q5, q6⟩
  rw [if_neg h8]
  by_cases h9 : c = '-'
  · rw [if_pos h9]; exact Or.inl ⟨_, _, rfl, rfl, rfl, rfl, rfl, Nat.le_refl _, by simp⟩
  rw [if_neg h9]
  by_cases h10 : c = '('
  · rw [if_pos h10]; exact Or.inl ⟨_, _, rfl, rfl, rfl, rfl, rfl, Nat.le_refl _, by simp⟩
  rw [if_neg h10]
  by_cases h11 : c = ')'
  · rw [if_pos h11]; exact Or.inl ⟨_, _, rfl, rfl, rfl, rfl, rfl, Nat.le_refl _, by simp⟩
  rw [if_neg h11]
  by_cases h12 : c = '+'
  · rw [if_pos h12]; exact Or.inl ⟨_, _, rfl, rfl, rfl, rfl, rfl, Nat.le_refl _, by simp⟩
  rw [if_neg h12]
  by_cases h13 : c = ';'
  · rw [if_pos h13]; exact Or.inl ⟨_, _, rfl, rfl, rfl, rfl, rfl, Nat.le_refl _, by simp⟩
  rw [if_neg h13]
  by_cases h14 : c = '/'
  · rw [if_pos h14]; exact Or.inl ⟨_, _, rfl, rfl, rfl, rfl, rfl, Nat.le_refl _, by simp⟩
  rw [if_neg h14]
  by_cases h15 : c = '>'
  · rw [if_pos h15]
    obtain ⟨tk, t', he, q1, q2, q3, q4, q5, q6⟩ :=
      gtArm_cases ⟨rest, tlen, tpos, tline, tcol⟩
    exact Or.inl ⟨tk, t', he, q1, q2, q3, q4, q5, q6⟩
  rw [if_neg h15]
  by_cases h16 : c = '<'
  · rw [if_pos h16]
    obtain ⟨tk, t', he, q1, q2, q3, q4, q5, q6⟩ :=
      ltArm_cases ⟨rest, tlen, tpos, tline, tcol⟩
    exact Or.inl ⟨tk, t', he, q1, q2, q3, q4, q5, q6⟩
  rw [if_neg h16]
  by_cases h17 : isDigitChar c = true
  · rw [if_pos h17]
    rcases digitArm_cases c ⟨rest, tlen, tpos, tline, tcol⟩ with
      ⟨tk, t', he, q1, q2, q3, q4, q5, q6⟩ | hp
    · exact Or.inl ⟨tk, t', he, q1, q2, q3, q4, q5, q6⟩
    · exact Or.inr hp
  rw [if_neg h17]
  by_cases h18 : isLetterChar c = true
  · rw [if_pos h18]
    obtain ⟨tk, t', he, q1, q2, q3, q4, q5, q6⟩ :=
      letterArm_cases c ⟨rest, tlen, tpos, tline, tcol⟩
    exact Or.inl ⟨tk, t', he, q1, q2, q3, q4, q5, q6⟩
  rw [if_neg h18]
  exact Or.inl ⟨_, _, rfl, rfl, rfl, rfl, rfl, Nat.le_refl _, by simp⟩

theorem dispatch_token_cases (t t' : Tokenizer) (tk : Token)
    (h : t.dispatch = NextResult.token tk t') :
    t'.len = t.len ∧ t'.pos = t.pos ∧ t'.line = t.line ∧ t'.col = t.col ∧
    t'.input.length < t.input.length ∧ ∀ b, tk ≠ Token.Boolean b := by
  obtain ⟨tin, tlen, tpos, tline, tcol⟩ := t
  cases tin with
  | nil => rw [dispatch_nil] at h; cases h
  | cons c rest =>
    rcases dispatch_cons_cases tlen tpos tline tcol c rest with
      ⟨tk2, t2, he, q1, q2, q3, q4, q5, q6⟩ | hp
    · rw [h] at he
      cases he
      exact ⟨q1, q2, q3, q4, Nat.lt_succ_of_le q5, q6⟩
    · rw [h] at hp; cases hp

theorem dispatch_eq_eof_iff (t : Tokenizer) :
    t.dispatch = NextResult.eof ↔ t.input = [] := by
  obtain ⟨tin, tlen, tpos, tline, tcol⟩ := t
  cases tin with
  | nil => simp [dispatch_nil]
  | cons c rest =>
    simp only [List.cons_ne_nil, iff_false]
    intro h
    rcases dispatch_cons_cases tlen tpos tline tcol c rest with
      ⟨tk2, t2, he, _⟩ | hp
    · rw [h] at he; cases he
    · rw [h] at hp; cases hp

theorem next_token_cases (t t' : Tokenizer) (tk : Token)
    (h : t.next = NextResult.token tk t') :
    t'.len = t.len ∧ t'.pos = (consume_whitespace t).pos ∧
    t'.line = (consume_whitespace t).line ∧ t'.col = t.col ∧
    t'.input.length < t.input.length ∧ ∀ b, tk ≠ Token.Boolean b := by
  unfold Tokenizer.next at h
  obtain ⟨q1, q2, q3, q4, q5, q6⟩ := dispatch_token_cases _ _ _ h
  have hcw := consume_whitespace_eq t
  refine ⟨?_, q2, q3, ?_, ?_, q6⟩
  · rw [q1, hcw]
  · rw [q4, hcw]
  · calc t'.input.length < (consume_whitespace t).input.length := q5
      _ ≤ t.input.length := by
          rw [hcw]; exact (List.dropWhile_sublist _).length_le

theorem next_consumes (t t' : Tokenizer) (tk : Token)
    (h : t.next = NextResult.token tk t') :
    t'.input.length < t.input.length :=
  (next_token_cases t t' tk h).2.2.2.2.1

theorem next_eq_eof_iff (t : Tokenizer) :
    t.next = NextResult.eof ↔ t.input.dropWhile isWhitespaceChar = [] := by
  unfold Tokenizer.next
  rw [dispatch_eq_eof_iff, consume_whitespace_eq]

theorem ws_dropWhile_fixed (l : List Char) :
    (l.dropWhile isWhitespaceChar).takeWhile isWhitespaceChar = [] ∧
    (l.dropWhile isWhitespaceChar).dropWhile isWhitespaceChar =
      l.dropWhile isWhitespaceChar := by
  induction l with
  | nil => simp
  | cons c rest ih =>
    by_cases h : isWhitespaceChar c <;>
      simp [List.dropWhile_cons, List.takeWhile_cons, h, ih]

theorem consume_whitespace_idem (t : Tokenizer) :
    consume_whitespace (consume_whitespace t) = consume_whitespace t := by
  obtain ⟨tin, tlen, tpos, tline, tcol⟩ := t
  simp [consume_whitespace_eq, (ws_dropWhile_fixed tin).1,
    (ws_dropWhile_fixed tin).2]

theorem next_consume_whitespace (t : Tokenizer) :
    (consume_whitespace t).next = t.next := by
  unfold Tokenizer.next
  rw [consume_whitespace_idem]

theorem runTokenizer_succ (fuel : Nat) (t : Tokenizer) :
    runTokenizer (fuel + 1) t =
      (match t.next with
       | NextResult.panicked => ScanOutcome.panicked
       | NextResult.eof => ScanOutcome.tokens []
       | NextResult.token tk t' =>
         match runTokenizer fuel t' with
         | ScanOutcome.tokens l => ScanOutcome.tokens (tk :: l)
         | r => r) := rfl

theorem runTokenizer_enough_fuel (fuel : Nat) (t : Tokenizer)
    (h : t.input.length < fuel) :
    runTokenizer fuel t ≠ ScanOutcome.outOfFuel := by
  induction fuel generalizing t with
  | zero => omega
  | succ n ih =>
    rw [runTokenizer_succ]
    cases hn : t.next with
    | panicked => simp
    | eof => simp
    | token tk t' =>
      have hlt := next_consumes t t' tk hn
      have hn2 : t'.input.length < n := by omega
      have hrun := ih t' hn2
      cases hr : runTokenizer n t' with
      | tokens l => simp [hr]
      | panicked => simp [hr]
      | outOfFuel => exact absurd hr hrun

theorem tokenize_ne_outOfFuel (s : String) :
    tokenize s ≠ ScanOutcome.outOfFuel := by
  unfold tokenize
  exact runTokenizer_enough_fuel _ _ (Nat.lt_succ_self _)

theorem next_not_ws (t : Tokenizer) (c : Char) (rest : List Char)
    (ht : t.input = c :: rest) (hc : isWhitespaceChar c = false) :
    t.next = t.dispatch := by
  unfold Tokenizer.next
  rw [consume_whitespace_of_head_not_ws t c rest ht hc]

theorem letter_not_digit (c : Char) (hc : isLetterChar c = true) :
    isDigitChar c = false := by
  cases h : isDigitChar c with
  | false => rfl
  | true =>
    exfalso
    simp only [isLetterChar, Bool.or_eq_true, Bool.and_eq_true,
      decide_eq_true_eq] at hc
    simp only [isDigitChar, Bool.and_eq_true, decide_eq_true_eq] at h
    have e1 : '0'.toNat = 48 := rfl
    have e2 : '9'.toNat = 57 := rfl
    have e3 : 'a'.toNat = 97 := rfl
    have e4 : 'z'.toNat = 122 := rfl
    have e5 : 'A'.toNat = 65 := rfl
    have e6 : 'Z'.toNat = 90 := rfl
    rw [e1, e2] at h
    rw [e3, e4, e5, e6] at hc
    omega

theorem letter_not_ws (c : Char) (hc : isLetterChar c = true) :
    isWhitespaceChar c = false := by
  cases h : isWhitespaceChar c with
  | false => rfl
  | true =>
    exfalso
    simp only [isWhitespaceChar, Bool.or_eq_true, decide_eq_true_eq] at h
    rcases h with (h | h) | h <;> subst h <;> exact absurd hc (by decide)

theorem digit_not_ws (c : Char) (hc : isDigitChar c = true) :
    isWhitespaceChar c = false := by
  cases h : isWhitespaceChar c with
  | false => rfl
  | true =>
    exfalso
    simp only [isWhitespaceChar, Bool.or_eq_true, decide_eq_true_eq] at h
    rcases h with (h | h) | h <;> subst h <;> exact absurd hc (by decide)

theorem dispatch_head_colon (t : Tokenizer) (rest : List Char)
    (ht : t.input = ':' :: rest) :
    t.dispatch = colonArm { t with input := rest } := by
  obtain ⟨tin, tlen, tpos, tline, tcol⟩ := t
  have ht2 : tin = ':' :: rest := ht
  subst ht2
  rfl

theorem dispatch_head_equal (t : Tokenizer) (rest : List Char)
    (ht : t.input = '=' :: rest) :
    t.dispatch = equalArm { t with input := rest } := by
  obtain ⟨tin, tlen, tpos, tline, tcol⟩ := t
  have ht2 : tin = '=' :: rest := ht
  subst ht2
  rfl

theorem dispatch_head_gt (t : Tokenizer) (rest : List Char)
    (ht : t.input = '>' :: rest) :
    t.dispatch = gtArm { t with input := rest } := by
  obtain ⟨tin, tlen, tpos, tline, tcol⟩ := t
  have ht2 : tin = '>' :: rest := ht
  subst ht2
  rfl

theorem dispatch_head_lt (t : Tokenizer) (rest : List Char)
    (ht : t.input = '<' :: rest) :
    t.dispatch = ltArm { t with input := rest } := by
  obtain ⟨tin, tlen, tpos, tline, tcol⟩ := t
  have ht2 : tin = '<' :: rest := ht
  subst ht2
  rfl

theorem dispatch_head_underscore (t : Tokenizer) (rest : List Char)
    (ht : t.input = '_' :: rest) :
    t.dispatch = NextResult.token Token.Invalid { t with input := rest } := by
  obtain ⟨tin, tlen, tpos, tline, tcol⟩ := t
  have ht2 : tin = '_' :: rest := ht
  subst ht2
  rfl

theorem dispatch_head_digit (t : Tokenizer) (c : Char) (rest : List Char)
    (ht : t.input = c :: rest) (hc : isDigitChar c = true) :
    t.dispatch = digitArm c { t with input := rest } := by
  obtain ⟨tin, tlen, tpos, tline, tcol⟩ := t
  have ht2 : tin = c :: rest := ht
  subst ht2
  have n1 : ¬(c = '*') := by rintro rfl; exact absurd hc (by decide)
  have n2 : ¬(c = '{') := by rintro rfl; exact absurd hc (by decide)
  have n3 : ¬(c = '}') := by rintro rfl; exact absurd hc (by decide)
  have n4 : ¬(c = '[') := by rintro rfl; exact absurd hc (by decide)
  have n5 : ¬(c = ']') := by rintro rfl; exact absurd hc (by decide)
  have n6 : ¬(c = ':') := by rintro rfl; exact absurd hc (by decide)
  have n7 : ¬(c = '.') := by rintro rfl; exact absurd hc (by decide)
  have n8 : ¬(c = '=') := by rintro rfl; exact absurd hc (by decide)
  have n9 : ¬(c = '-') := by rintro rfl; exact absurd hc (by decide)
  have n10 : ¬(c = '(') := by rintro rfl; exact absurd hc (by decide)
  have n11 : ¬(c = ')') := by rintro rfl; exact absurd hc (by decide)
  have n12 : ¬(c = '+') := by rintro rfl; exact absurd hc (by decide)
  have n13 : ¬(c = ';') := by rintro rfl; exact absurd hc (by decide)
  have n14 : ¬(c = '/') := by rintro rfl; exact absurd hc (by decide)
  have n15 : ¬(c = '>') := by rintro rfl; exact absurd hc (by decide)
  have n16 : ¬(c = '<') := by rintro rfl; exact absurd hc (by decide)
  rw [dispatch_cons, if_neg n1, if_neg n2, if_neg n3, if_neg n4, if_neg n5,
    if_neg n6, if_neg n7, if_neg n8, if_neg n9, if_neg n10, if_neg n11,
    if_neg n12, if_neg n13, if_neg n14, if_neg n15, if_neg n16, if_pos hc]

theorem dispatch_head_letter (t : Tokenizer) (c : Char) (rest : List Char)
    (ht : t.input = c :: rest) (hc : isLetterChar c = true) :
    t.dispatch = letterArm c { t with input := rest } := by
  obtain ⟨tin, tlen, tpos, tline, tcol⟩ := t
  have ht2 : tin = c :: rest := ht
  subst ht2
  have n1 : ¬(c = '*') := by rintro rfl; exact absurd hc (by decide)
  have n2 : ¬(c = '{') := by rintro rfl; exact absurd hc (by decide)
  have n3 : ¬(c = '}') := by rintro rfl; exact absurd hc (by decide)
  have n4 : ¬(c = '[') := by rintro rfl; exact absurd hc (by decide)
  have n5 : ¬(c = ']') := by rintro rfl; exact absurd hc (by decide)
  have n6 : ¬(c = ':') := by rintro rfl; exact absurd hc (by decide)
  have n7 : ¬(c = '.') := by rintro rfl; exact absurd hc (by decide)
  have n8 : ¬(c = '=') := by rintro rfl; exact absurd hc (by decide)
  have n9 : ¬(c = '-') := by rintro rfl; exact absurd hc (by decide)
  have n10 : ¬(c = '(') := by rintro rfl; exact absurd hc (by decide)
  have n11 : ¬(c = ')') := by rintro rfl; exact absurd hc (by decide)
  have n12 : ¬(c = '+') := by rintro rfl; exact absurd hc (by decide)
  have n13 : ¬(c = ';') := by rintro rfl; exact absurd hc (by decide)
  have n14 : ¬(c = '/') := by rintro rfl; exact absurd hc (by decide)
  have n15 : ¬(c = '>') := by rintro rfl; exact absurd hc (by decide)
  have n16 : ¬(c = '<') := by rintro rfl; exact absurd hc (by decide)
  have n17 : ¬(isDigitChar c = true) := by
    rw [letter_not_digit c hc]; exact Bool.false_ne_true
  rw [dispatch_cons, if_neg n1, if_neg n2, if_neg n3, if_neg n4, if_neg n5,
    if_neg n6, if_neg n7, if_neg n8, if_neg n9, if_neg n10, if_neg n11,
    if_neg n12, if_neg n13, if_neg n14, if_neg n15, if_neg n16, if_neg n17,
    if_pos hc]


theorem dispatch_head_invalid (t : Tokenizer) (c : Char) (rest : List Char)
    (ht : t.input = c :: rest) (hc : noScanRule c = true) :
    t.dispatch = NextResult.token Token.Invalid { t with input := rest } := by
  obtain ⟨tin, tlen, tpos, tline, tcol⟩ := t
  have ht2 : tin = c :: rest := ht
  subst ht2
  have n1 : ¬(c = '*') := by rintro rfl; exact absurd hc (by decide)
  have n2 : ¬(c = '{') := by rintro rfl; exact absurd hc (by decide)
  have n3 : ¬(c = '}') := by rintro rfl; exact absurd hc (by decide)
  have n4 : ¬(c = '[') := by rintro rfl; exact absurd hc (by decide)
  have n5 : ¬(c = ']') := by rintro rfl; exact absurd hc (by decide)
  have n6 : ¬(c = ':') := by rintro rfl; exact absurd hc (by decide)
  have n7 : ¬(c = '.') := by rintro rfl; exact absurd hc (by decide)
  have n8 : ¬(c = '=') := by rintro rfl; exact absurd hc (by decide)
  have n9 : ¬(c = '-') := by rintro rfl; exact absurd hc (by decide)
  have n10 : ¬(c = '(') := by rintro rfl; exact absurd hc (by decide)
  have n11 : ¬(c = ')') := by rintro rfl; exact absurd hc (by decide)
  have n12 : ¬(c = '+') := by rintro rfl; exact absurd hc (by decide)
  have n13 : ¬(c = ';') := by rintro rfl; exact absurd hc (by decide)
  have n14 : ¬(c = '/') := by rintro rfl; exact absurd hc (by decide)
  have n15 : ¬(c = '>') := by rintro rfl; exact absurd hc (by decide)
  have n16 : ¬(c = '<') := by rintro rfl; exact absurd hc (by decide)
  have n17 : ¬(isDigitChar c = true) := by
    intro hd
    have hf : noScanRule c = false := by simp [noScanRule, hd]
    rw [hf] at hc
    exact absurd hc (by decide)
  have n18 : ¬(isLetterChar c = true) := by
    intro hd
    have hf : noScanRule c = false := by simp [noScanRule, hd]
    rw [hf] at hc
    exact absurd hc (by decide)
  rw [dispatch_cons, if_neg n1, if_neg n2, if_neg n3, if_neg n4, if_neg n5,
    if_neg n6, if_neg n7, if_neg n8, if_neg n9, if_neg n10, if_neg n11,
    if_neg n12, if_neg n13, if_neg n14, if_neg n15, if_neg n16, if_neg n17,
    if_neg n18]

/-- C1: scanning a maximal digit run parses it as a 32-bit signed integer
and yields `Integer(value)` when the value fits the `i32` range; but when
the run exceeds the range, the code calls `.unwrap()` on the failed parse
and panics, aborting the process — contrary to the claim, no distinct,
catchable numeric-overflow error result is surfaced to the caller.
Concretely, `"2147483647"` scans to `Integer 2147483647` while
`"2147483648"` panics. -/
theorem c1_digit_run_overflow (t : Tokenizer) (c : Char) (rest : List Char)
    (ht : t.input = c :: rest) (hc : isDigitChar c = true) :
    (digitsVal ⟨c.toString.data ++ rest.takeWhile isDigitChar⟩ ≤ 2147483647 →
      t.next = NextResult.token
        (Token.Integer (Int.ofNat
          (digitsVal ⟨c.toString.data ++ rest.takeWhile isDigitChar⟩)))
        { t with input := rest.dropWhile isDigitChar }) ∧
    (2147483647 < digitsVal ⟨c.toString.data ++ rest.takeWhile isDigitChar⟩ →
      t.next = NextResult.panicked) ∧
    tokenize "2147483647" = ScanOutcome.tokens [Token.Integer 2147483647] ∧
    tokenize "2147483648" = ScanOutcome.panicked := by
  obtain ⟨tin, tlen, tpos, tline, tcol⟩ := t
  have ht2 : tin = c :: rest := ht
  subst ht2
  rw [next_not_ws _ c rest rfl (digit_not_ws c hc),
      dispatch_head_digit _ c rest rfl hc, digitArm_spec]
  simp only []
  refine ⟨?_, ?_, by decide, by decide⟩
  · intro hle
    rw [if_pos hle]
  · intro hgt
    rw [if_neg (by omega)]

/-- C1 witness: the theorem applied at the concrete input `"42"`
(first digit `'4'`, remaining input `['2']`), with the in-range side
discharged. -/
theorem c1_witness :
    (Tokenizer.new "42").next = NextResult.token
      (Token.Integer (Int.ofNat
        (digitsVal ⟨'4'.toString.data ++ ['2'].takeWhile isDigitChar⟩)))
      { Tokenizer.new "42" with input := ['2'].dropWhile isDigitChar } :=
  (c1_digit_run_overflow (Tokenizer.new "42") '4' ['2'] rfl (by decide)).1
    (by decide)

/-- C2: each of `':'`, `'='`, `'>'`, `'<'` followed by a non-extending
character yields the corresponding single-character token (`Colon`,
`EqualSign`, `Gt`, `Lt`) with the following character left unconsumed in
the scanner state; and scanning `"+-*/::=<<="` yields exactly
`[Plus, Minus, Asterisk, Slash, Colon, Assign, Lt, Le]` followed by
exhaustion. -/
theorem c2_two_char_lookahead :
    (∀ (t : Tokenizer) (rest : List Char),
      (t.input = ':' :: rest → rest.head? ≠ some '=' →
        t.next = NextResult.token Token.Colon { t with input := rest }) ∧
      (t.input = '=' :: rest → rest.head? ≠ some '=' →
        t.next = NextResult.token Token.EqualSign { t with input := rest }) ∧
      (t.input = '>' :: rest → rest.head? ≠ some '=' →
        t.next = NextResult.token Token.Gt { t with input := rest }) ∧
      (t.input = '<' :: rest → rest.head? ≠ some '=' → rest.head? ≠ some '>' →
        t.next = NextResult.token Token.Lt { t with input := rest })) ∧
    tokenize "+-*/::=<<=" = ScanOutcome.tokens [Token.Plus, Token.Minus,
      Token.Asterisk, Token.Slash, Token.Colon, Token.Assign, Token.Lt,
      Token.Le] := by
  refine ⟨?_, by decide⟩
  intro t rest
  refine ⟨?_, ?_, ?_, ?_⟩
  · intro ht hne
    rw [next_not_ws t ':' rest ht (by decide), dispatch_head_colon t rest ht]
    rcases rest with _ | ⟨d, rest2⟩
    · exact colonArm_nil _ rfl
    · exact colonArm_other _ d rest2 rfl (by simpa using hne)
  · intro ht hne
    rw [next_not_ws t '=' rest ht (by decide), dispatch_head_equal t rest ht]
    rcases rest with _ | ⟨d, rest2⟩
    · exact equalArm_nil _ rfl
    · exact equalArm_other _ d rest2 rfl (by simpa using hne)
  · intro ht hne
    rw [next_not_ws t '>' rest ht (by decide), dispatch_head_gt t rest ht]
    rcases rest with _ | ⟨d, rest2⟩
    · exact gtArm_nil _ rfl
    · exact gtArm_other _ d rest2 rfl (by simpa using hne)
  · intro ht hne1 hne2
    rw [next_not_ws t '<' rest ht (by decide), dispatch_head_lt t rest ht]
    rcases rest with _ | ⟨d, rest2⟩
    · exact ltArm_nil _ rfl
    · exact ltArm_other _ d rest2 rfl (by simpa using hne1) (by simpa using hne2)

/-- C2 witness: the `':'` case applied at the concrete input `":a"`
(`'a'` does not extend `':'`), yielding `Colon` with `'a'` unconsumed. -/
theorem c2_witness :
    (Tokenizer.new ":a").next = NextResult.token Token.Colon
      { Tokenizer.new ":a" with input := ['a'] } :=
  (c2_two_char_lookahead.1 (Tokenizer.new ":a") ['a']).1 rfl (by decide)

/-- C3: keyword recognition is exact-case — every entry of the keyword
table maps to its reserved-word token, any string not a key of the table
yields `Name` of the accumulated string; `"if"` yields `If`, `"If"` yields
`Name "If"`, and `"and xxx if If"` yields
`[And, Name "xxx", If, Name "If"]`. -/
theorem c3_keywords_exact_case :
    (∀ kv ∈ KEYWORDS, classifyWord kv.1 = kv.2) ∧
    (∀ s : String, (∀ kv ∈ KEYWORDS, kv.1 ≠ s) →
      classifyWord s = Token.Name s) ∧
    tokenize "if" = ScanOutcome.tokens [Token.If] ∧
    tokenize "If" = ScanOutcome.tokens [Token.Name "If"] ∧
    tokenize "and xxx if If" = ScanOutcome.tokens
      [Token.And, Token.Name "xxx", Token.If, Token.Name "If"] := by
  refine ⟨by decide, ?_, by decide, by decide, by decide⟩
  intro s hs
  have hf : KEYWORDS.find? (fun kv => kv.1 == s) = none := by
    rw [List.find?_eq_none]
    intro kv hkv
    simpa using hs kv hkv
  unfold classifyWord keywordGet
  rw [hf]
  rfl

/-- C3 witness: `"foo"` matches no keyword, so it classifies as
`Name "foo"`. -/
theorem c3_witness : classifyWord "foo" = Token.Name "foo" :=
  c3_keywords_exact_case.2.1 "foo" (by decide)

/-- C4 counterexample: tokenizing `"ab"` consumes two characters in one
`next` call (the remaining input goes from `['a','b']` to `[]`), yet the
resulting scanner state still has `pos = 0` and `col = 0` — the cursor
fields are not kept up to date by token production, refuting the claim
that every operation maintains them. -/
theorem c4_counterexample :
    (Tokenizer.new "ab").next =
      NextResult.token (Token.Name "ab") ⟨[], 2, 0, 1, 0⟩ := by decide

/-- C4 (amended): the cursor fields are only partially maintained —
whitespace skipping increments `pos` once per consumed whitespace
character and `line` once per consumed newline while leaving `col` and
`len` unchanged, but token production updates no cursor field at all
(the produced state keeps the post-whitespace `pos` and `line`, and the
original `col` and `len`), and `col` starts at 0 and is never modified by
any operation. -/
theorem c4_amended_cursor_tracking :
    (∀ t : Tokenizer, consume_whitespace t =
      { input := t.input.dropWhile isWhitespaceChar, len := t.len,
        pos := t.pos + (t.input.takeWhile isWhitespaceChar).length,
        line := t.line + ((t.input.takeWhile isWhitespaceChar).filter
          (fun c => c = '\n')).length,
        col := t.col }) ∧
    (∀ (t t' : Tokenizer) (tk : Token), t.next = NextResult.token tk t' →
      t'.pos = (consume_whitespace t).pos ∧
      t'.line = (consume_whitespace t).line ∧
      t'.col = t.col ∧ t'.len = t.len) ∧
    (∀ s : String, (Tokenizer.new s).col = 0) := by
  refine ⟨consume_whitespace_eq, ?_, fun s => rfl⟩
  intro t t' tk h
  obtain ⟨q1, q2, q3, q4, _, _⟩ := next_token_cases t t' tk h
  exact ⟨q2, q3, q4, q1⟩

/-- C4 witness: the token-production clause applied at the concrete input
`" a"` (one skipped space, then `Name "a"`). -/
theorem c4_amended_witness :
    (⟨[], 2, 1, 1, 0⟩ : Tokenizer).pos =
      (consume_whitespace (Tokenizer.new " a")).pos ∧
    (⟨[], 2, 1, 1, 0⟩ : Tokenizer).line =
      (consume_whitespace (Tokenizer.new " a")).line ∧
    (⟨[], 2, 1, 1, 0⟩ : Tokenizer).col = (Tokenizer.new " a").col ∧
    (⟨[], 2, 1, 1, 0⟩ : Tokenizer).len = (Tokenizer.new " a").len :=
  c4_amended_cursor_tracking.2.1 (Tokenizer.new " a") ⟨[], 2, 1, 1, 0⟩
    (Token.Name "a") (by decide)

/-- C5: digit and letter runs are scanned greedily — the accumulation
loop takes exactly the maximal run of its class (`takeWhile`) and leaves
the rest (`dropWhile`); an identifier starting with a letter absorbs
following letters, digits and underscores; and `"123abc"` tokenizes as
`Integer 123` followed by `Name "abc"`. -/
theorem c5_greedy_runs :
    (∀ (p : Char → Bool) (l : List Char) (s : String),
      (scanRun p l s).1 = ⟨s.data ++ l.takeWhile p⟩ ∧
      (scanRun p l s).2 = l.dropWhile p) ∧
    (∀ (t : Tokenizer) (c : Char) (rest : List Char),
      t.input = c :: rest → isLetterChar c = true →
      t.next = NextResult.token
        (classifyWord ⟨c.toString.data ++ rest.takeWhile isWordChar⟩)
        { t with input := rest.dropWhile isWordChar }) ∧
    tokenize "123abc" = ScanOutcome.tokens
      [Token.Integer 123, Token.Name "abc"] := by
  refine ⟨?_, ?_, by decide⟩
  · intro p l s
    rw [scanRun_spec]
    exact ⟨rfl, rfl⟩
  · intro t c rest ht hc
    obtain ⟨tin, tlen, tpos, tline, tcol⟩ := t
    have ht2 : tin = c :: rest := ht
    subst ht2
    rw [next_not_ws _ c rest rfl (letter_not_ws c hc),
        dispatch_head_letter _ c rest rfl hc, letterArm_spec]

/-- C5 witness: the identifier clause applied at the concrete input
`"ab"`. -/
theorem c5_witness :
    (Tokenizer.new "ab").next = NextResult.token
      (classifyWord ⟨'a'.toString.data ++ ['b'].takeWhile isWordChar⟩)
      { Tokenizer.new "ab" with input := ['b'].dropWhile isWordChar } :=
  c5_greedy_runs.2.1 (Tokenizer.new "ab") 'a' ['b'] rfl (by decide)

/-- C6: tokenizing the empty string or a whitespace-only string yields no
tokens, and in general a call to `next` signals exhaustion exactly when
the remaining input is empty after discarding leading whitespace. -/
theorem c6_exhaustion :
    tokenize "" = ScanOutcome.tokens [] ∧
    tokenize " \t \n  " = ScanOutcome.tokens [] ∧
    ∀ t : Tokenizer, (t.next = NextResult.eof ↔
      t.input.dropWhile isWhitespaceChar = []) :=
  ⟨by decide, by decide, next_eq_eof_iff⟩

/-- C7: a character matching no scanning rule yields `Invalid` and is
still consumed; every token-producing call strictly shrinks the remaining
input; consequently draining the tokenizer over any finite input
terminates (the fuel bound `length + 1` is never exhausted). -/
theorem c7_invalid_progress_termination :
    (∀ (t : Tokenizer) (c : Char) (rest : List Char),
      t.input = c :: rest → isWhitespaceChar c = false →
      noScanRule c = true →
      t.next = NextResult.token Token.Invalid { t with input := rest }) ∧
    (∀ (t t' : Tokenizer) (tk : Token),
      t.next = NextResult.token tk t' → t'.input.length < t.input.length) ∧
    (∀ s : String, tokenize s ≠ ScanOutcome.outOfFuel) := by
  refine ⟨?_, next_consumes, tokenize_ne_outOfFuel⟩
  intro t c rest ht hws hrule
  rw [next_not_ws t c rest ht hws, dispatch_head_invalid t c rest ht hrule]

/-- C7 witness: the concrete bad character `'#'` yields `Invalid` and is
consumed. -/
theorem c7_witness :
    (Tokenizer.new "#").next = NextResult.token Token.Invalid
      { Tokenizer.new "#" with input := [] } ∧
    (⟨[], 1, 0, 1, 0⟩ : Tokenizer).input.length <
      (Tokenizer.new "#").input.length :=
  ⟨c7_invalid_progress_termination.1 (Tokenizer.new "#") '#' [] rfl
      (by decide) (by decide),
   c7_invalid_progress_termination.2.1 (Tokenizer.new "#")
      ⟨[], 1, 0, 1, 0⟩ Token.Invalid (by decide)⟩

/-- C8: on each call the scanner first consumes the maximal run of
space/tab/newline characters (the remaining input is the `dropWhile` of
the whitespace class, so the next token starts at the first
non-whitespace character, and skipping first does not change the produced
result); each consumed newline increments the line counter by one, each
consumed whitespace character increments `pos` by one, and nothing else
is touched (`col` and `len` are unchanged). -/
theorem c8_whitespace_maximal_skip :
    ∀ t : Tokenizer,
      (consume_whitespace t).input = t.input.dropWhile isWhitespaceChar ∧
      (consume_whitespace t).pos =
        t.pos + (t.input.takeWhile isWhitespaceChar).length ∧
      (consume_whitespace t).line = t.line +
        ((t.input.takeWhile isWhitespaceChar).filter
          (fun c => c = '\n')).length ∧
      (consume_whitespace t).col = t.col ∧
      (consume_whitespace t).len = t.len ∧
      (consume_whitespace t).next = t.next := by
  intro t
  refine ⟨?_, ?_, ?_, ?_, ?_, next_consume_whitespace t⟩ <;>
    rw [consume_whitespace_eq]

/-- C9: no call to `next` ever produces a `Boolean` token: every token a
call can return is distinct from `Boolean b` for every `b`. -/
theorem c9_no_boolean_token (t t' : Tokenizer) (tk : Token)
    (h : t.next = NextResult.token tk t') :
    ∀ b : Bool, tk ≠ Token.Boolean b :=
  (next_token_cases t t' tk h).2.2.2.2.2

/-- C9 witness: the theorem applied at the concrete input `"x"` (which
produces `Name "x"`). -/
theorem c9_witness : Token.Name "x" ≠ Token.Boolean true :=
  c9_no_boolean_token (Tokenizer.new "x") ⟨[], 1, 0, 1, 0⟩
    (Token.Name "x") (by decide) true

/-- C10: an underscore cannot start a token — whenever the first
non-whitespace character is `'_'`, `next` yields `Invalid` consuming only
that character — even though `'_'` is accepted inside an identifier run
(`isWordChar '_'`), as in `"a_1"` scanning to `Name "a_1"`. -/
theorem c10_underscore_invalid :
    (∀ (t : Tokenizer) (rest : List Char),
      t.input.dropWhile isWhitespaceChar = '_' :: rest →
      t.next = NextResult.token Token.Invalid
        { consume_whitespace t with input := rest }) ∧
    isWordChar '_' = true ∧
    tokenize "a_1" = ScanOutcome.tokens [Token.Name "a_1"] := by
  refine ⟨?_, by decide, by decide⟩
  intro t rest ht
  unfold Tokenizer.next
  refine dispatch_head_underscore (consume_whitespace t) rest ?_
  rw [consume_whitespace_eq]
  exact ht

/-- C10 witness: the concrete input `" _x"` (leading space, then an
underscore) yields `Invalid`, consuming only the underscore. -/
theorem c10_witness :
    (Tokenizer.new " _x").next = NextResult.token Token.Invalid
      { consume_whitespace (Tokenizer.new " _x") with input := ['x'] } :=
  c10_underscore_invalid.1 (Tokenizer.new " _x") ['x'] (by decide)
